import Mathlib

/-!
Shallow embedding of the decoupled particle-physics engine of
`src/particles/src/physics.rs` (repository aftgraphs).

Modelling conventions:
* `f32` arithmetic is modelled by `ℚ` (exact rational arithmetic);
* the flattened particle-state and velocity vectors (`BVector<f32, Dyn>`)
  are modelled by `List ℚ`;
* the lock-free `Injector` snapshot queue is modelled by a `List (ℚ × List ℚ)`
  in steal order (push appends at the back, steal removes the front);
* the random sampler of the Spawn branch is modelled by an explicit finite
  tape of candidate draws; exhausting the tape yields `none` (the real
  sampler is inexhaustible);
* the worker runs `bacon_sci` Euler with `minimum_dt = maximum_dt = 0.1`,
  so every step advances time by exactly `0.1`.  The stepping scheme itself
  lives in the external `bacon_sci` crate; it is modelled from the spec
  (section 2: a fixed-step explicit Euler scheme `y + dt * f(t, y)`).
-/

/-- Fixed integration step: the solver is built `with_minimum_dt(0.1)` and
`with_maximum_dt(0.1)` (physics.rs lines 122-123), so each step of the
Euler solver advances time by exactly one tenth. -/
def step_dt : ℚ := 1 / 10

/-- Velocity flip of `particle_derivative` (physics.rs lines 69-77): a
velocity component changes sign whenever the matching coordinate is at or
beyond the reflecting band `[lo, hi]`, where `lo = -1 + radius * scale` and
`hi = 1 - radius * scale` (scale is `1` on x and `aspect_ratio` on y). -/
def flipVel (lo hi x v : ℚ) : ℚ := if x ≤ lo ∨ hi ≤ x then -v else v

/-- One Euler step of the worker.  `particle_derivative` (physics.rs lines
58-83) walks the flattened state two entries at a time, flips the stored
velocity components on wall contact (the flip persists, mutating the shared
velocity vector) and returns the flipped velocities as the derivative
entries; the Euler scheme (modelled from the spec: fixed-step explicit
`y + dt * f(t, y)`) then advances every coordinate by `dt` times its
derivative entry.  Returns (new positions, new velocities).  A trailing
element that does not fill a pair is left untouched, matching
`chunks_exact(2)` which skips it and leaves its derivative entry zero. -/
def stepState (r a dt : ℚ) : List ℚ → List ℚ → List ℚ × List ℚ
  | x :: py :: ys, vx :: vy :: vs =>
    let vx' := flipVel (-1 + r) (1 - r) x vx
    let vy' := flipVel (-1 + r * a) (1 - r * a) py vy
    let rest := stepState r a dt ys vs
    ((x + dt * vx') :: (py + dt * vy') :: rest.1, vx' :: vy' :: rest.2)
  | ys, vs => (ys, vs)

/-- Iterated Euler steps: the sequence of position/velocity states the
worker publishes while integrating (physics.rs lines 140-142 push one
snapshot per `solver.next()`). -/
def trajectory (r a dt : ℚ) (y v : List ℚ) : ℕ → List ℚ × List ℚ
  | 0 => (y, v)
  | n + 1 =>
    let p := trajectory r a dt y v n
    stepState r a dt p.1 p.2

/-- Invariant of a single reflecting axis with band `[lo, hi]`: the
coordinate stays within one step of travel of the band, and whenever it is
strictly beyond a wall the stored velocity points back from the direction
it came (positive beyond `hi`, negative beyond `lo`, measured before the
flip of the next derivative evaluation). -/
def axisInv (lo hi dt x v : ℚ) : Prop :=
  lo - dt * |v| ≤ x ∧ x ≤ hi + dt * |v| ∧ (hi < x → 0 < v) ∧ (x < lo → v < 0)

/-- Weakened form of the reflecting-boundary containment: the coordinate is
within the band extended by one step of travel on each side. -/
def inBand (lo hi dt x v : ℚ) : Prop :=
  lo - dt * |v| ≤ x ∧ x ≤ hi + dt * |v|

/-- The axis invariant, applied to every particle of a flattened state
vector (x axis band `[-1+r, 1-r]`, y axis band `[-1+r*a, 1-r*a]`). -/
def stateInv (r a dt : ℚ) : List ℚ → List ℚ → Prop
  | x :: py :: ys, vx :: vy :: vs =>
    axisInv (-1 + r) (1 - r) dt x vx ∧ axisInv (-1 + r * a) (1 - r * a) dt py vy ∧
      stateInv r a dt ys vs
  | _, _ => True

/-- Boundary containment up to one step of travel, for every particle of a
flattened state vector. -/
def boundedState (r a dt : ℚ) : List ℚ → List ℚ → Prop
  | x :: py :: ys, vx :: vy :: vs =>
    inBand (-1 + r) (1 - r) dt x vx ∧ inBand (-1 + r * a) (1 - r * a) dt py vy ∧
      boundedState r a dt ys vs
  | _, _ => True

/-- Every particle of the flattened state lies strictly inside the
reflecting band on both axes (what the Spawn rejection sampling guarantees
on insertion, physics.rs lines 196-206). -/
def strictInside (r a : ℚ) : List ℚ → List ℚ → Prop
  | x :: py :: ys, _vx :: _vy :: vs =>
    (-1 + r < x ∧ x < 1 - r) ∧ (-1 + r * a < py ∧ py < 1 - r * a) ∧
      strictInside r a ys vs
  | _, _ => True

/-- Render-ready instance record (physics.rs lines 381-393; the schema of
`Instance` in src/particles/src/lib.rs lines 17-23). -/
structure Instance where
  position : ℚ × ℚ
  radius : ℚ
  color : ℚ × ℚ × ℚ
deriving DecidableEq

/-- Mapping of a flattened position vector to instance records
(`Physics::instances`, physics.rs lines 381-393): one record per pair of
coordinates, radius copied from the handle, color white. -/
def instances (radius : ℚ) : List ℚ → List Instance
  | x :: y :: rest => ⟨(x, y), radius, (1, 1, 1)⟩ :: instances radius rest
  | _ => []

/-- Drain loop of `Physics::get_state` (physics.rs lines 399-413): steal
queue entries in order; each entry with time strictly below `t` is pushed
onto the scratchpad, and the first entry with time at or after `t` ends the
loop.  The finite list models the snapshots that ever become available;
exhausting it without finding an entry at-or-after `t` models the loop
spinning forever, returned as `none`. -/
def drain_loop (t : ℚ) : List (ℚ × List ℚ) → List (ℚ × List ℚ) →
    Option ((ℚ × List ℚ) × List (ℚ × List ℚ))
  | [], _ => none
  | s :: rest, scratch =>
    if s.1 < t then drain_loop t rest (scratch ++ [s]) else some (s, scratch)

/-- `Physics::get_state` (physics.rs lines 395-427): drain the queue until
a snapshot at-or-after `t` is found; if no older snapshot was drained,
return that snapshot verbatim, otherwise linearly interpolate with
`interp_t = (t - time_before) / (time_after - time_before)` and result
`state_before * interp_t + state_after * (1 - interp_t)`, where the before
snapshot is the last entry pushed onto the scratchpad. -/
def get_state (radius t : ℚ) (queue : List (ℚ × List ℚ)) : Option (List Instance) :=
  match drain_loop t queue [] with
  | none => none
  | some (after, scratch) =>
    match scratch.getLast? with
    | none => some (instances radius after.2)
    | some before =>
      let interp_t := (t - before.1) / (after.1 - before.1)
      some (instances radius
        (List.zipWith (fun b a2 => b * interp_t + a2 * (1 - interp_t)) before.2 after.2))

/-- One candidate draw of the Spawn rejection sampler (physics.rs lines
188-194): a position sampled uniformly from the square and a velocity
given by magnitude and angle; the embedding carries the resulting velocity
components directly. -/
structure Cand where
  x : ℚ
  y : ℚ
  vx : ℚ
  vy : ℚ
deriving DecidableEq

/-- Number of already-placed particles of `start_state` whose center is
within `2 * radius` (aspect-corrected on y) of the candidate, exactly the
test of the `for circle in start_state.as_slice().chunks(2)` loop
(physics.rs lines 208-216).  In the source each such particle increments
`failed_circles`; the `continue` there targets the `for` loop itself, so
nothing else happens. -/
def overlap_count (r a x y : ℚ) : List ℚ → ℕ
  | cx :: cy :: rest =>
    (if (cx - x) ^ 2 + ((cy - y) / a) ^ 2 ≤ 4 * r ^ 2 then 1 else 0) +
      overlap_count r a x y rest
  | _ => 0

/-- Rejection-sampling loop of the Spawn branch (physics.rs lines 187-221).
State: remaining sample tape, `idx` (accepted so far), `failed_circles`,
and the accumulated `new_particles` list of (position, velocity) pairs.
Out-of-band candidates increment `failed_circles` and restart the loop.
For an in-band candidate the overlap scan adds `overlap_count` to
`failed_circles`, but because its `continue` only continues the `for` loop,
the candidate is pushed regardless and `failed_circles` is then reset to
zero, so that addition is dead.  Returns `none` when the tape is exhausted
(the real sampler never is), otherwise the final `(failed_circles,
new_particles)`. -/
def spawn_loop (r a : ℚ) (start_state : List ℚ) (num : ℕ) :
    List Cand → ℕ → ℕ → List ((ℚ × ℚ) × ℚ × ℚ) → Option (ℕ × List ((ℚ × ℚ) × ℚ × ℚ))
  | cands, idx, failed, acc =>
    if idx < num ∧ failed < 50 then
      match cands with
      | [] => none
      | c :: rest =>
        if c.x ≤ -1 + r ∨ 1 - r ≤ c.x then
          spawn_loop r a start_state num rest idx (failed + 1) acc
        else if c.y ≤ -1 + r * a ∨ 1 - r * a ≤ c.y then
          spawn_loop r a start_state num rest idx (failed + 1) acc
        else
          let _fc := failed + overlap_count r a c.x c.y start_state
          spawn_loop r a start_state num rest (idx + 1) 0 (acc ++ [((c.x, c.y), (c.vx, c.vy))])
    else some (failed, acc)

/-- Flattened positions of the accepted new particles, in acceptance
order (the `flat_map` over `new_particles` at physics.rs lines 238-242). -/
def flatten_pos (acc : List ((ℚ × ℚ) × ℚ × ℚ)) : List ℚ :=
  acc.foldr (fun pp l => pp.1.1 :: pp.1.2 :: l) []

/-- Flattened velocities of the accepted new particles, in acceptance
order (the `flat_map` over `new_particles` at physics.rs lines 231-235). -/
def flatten_vel (acc : List ((ℚ × ℚ) × ℚ × ℚ)) : List ℚ :=
  acc.foldr (fun pp l => pp.2.1 :: pp.2.2 :: l) []

/-- Outcome of the worker Spawn branch after the loop (physics.rs lines
223-245): if `failed_circles == 50` respond `false` and mutate nothing;
otherwise add `num` to the particle count and extend the velocity and
start-state vectors with the accepted particles.  The result is
`(response, num_particles, start_state, velocities)`; `none` models an
exhausted sample tape. -/
def spawn_handler (r a : ℚ) (np : ℕ) (state vels : List ℚ) (num : ℕ)
    (tape : List Cand) : Option (Bool × ℕ × List ℚ × List ℚ) :=
  match spawn_loop r a state num tape 0 0 [] with
  | none => none
  | some (failed, acc) =>
    if failed = 50 then some (false, np, state, vels)
    else some (true, np + num, state ++ flatten_pos acc, vels ++ flatten_vel acc)

/-- Controller-side count update of `Physics::spawn` (physics.rs lines
429-443): the tracked count grows by `num` exactly when the response is a
success. -/
def controller_spawn (count num : ℕ) (response : Bool) : ℕ :=
  if response then count + num else count

/-- Worker Pop branch (physics.rs lines 166-181): clamp the particle count
(`if num > num_particles` then zero, else subtract), then truncate both
the velocity vector and the recovered start state to the first
`num_particles * 2` entries.  Result: `(num_particles, start_state,
velocities)`. -/
def pop_worker (np : ℕ) (state vels : List ℚ) (num : ℕ) : ℕ × List ℚ × List ℚ :=
  let np' := if num > np then 0 else np - num
  (np', state.take (np' * 2), vels.take (np' * 2))

/-- Controller-side count update of `Physics::pop` (physics.rs lines
455-459): subtract with clamping at zero. -/
def controller_pop (count num : ℕ) : ℕ := if count > num then count - num else 0

/-- Error type of the integrator construction, after
`bacon_sci::ivp::IVPError` (only the variants this embedding needs). -/
inductive IVPError where
  | TimeEndOOB
  | InvalidStep
deriving DecidableEq

/-- Externally visible fields of the `Physics` handle (physics.rs lines
18-30; channels, queue handle and thread handle are elided). -/
structure Physics where
  time : ℚ
  radius : ℚ
  aspect_ratio : ℚ
  num_particles : ℕ
deriving DecidableEq

/-- Construction of the facade, `Physics::new` (physics.rs lines 286-329):
it builds the channels, spawns the worker thread and returns `Ok`
unconditionally.  The solver is only built inside `PhysicsThread::thread`
on the worker thread, whose `Result` is consumed by the `expect` inside
`PhysicsThread::create` (physics.rs lines 86-98) — an error there panics
the worker thread; it is never propagated to the caller of `new`.  The
parameter `worker_outcome` stands for that worker-side result and is
(faithfully) ignored. -/
def physics_new (_display : Bool) (time radius aspect_ratio : ℚ)
    (_worker_outcome : Except IVPError Unit) : Except IVPError Physics :=
  Except.ok { time := time, radius := radius, aspect_ratio := aspect_ratio, num_particles := 0 }

/-- Modelled from the spec: the step-bound validation of the external
`bacon_sci` Euler builder (`with_minimum_dt` / `with_maximum_dt`), which is
not part of this repository.  Spec section 4.1: integrator construction
"fails only on invalid parameters (non-positive step bounds)". -/
def euler_builder (min_dt max_dt : ℚ) : Except IVPError Unit :=
  if 0 < min_dt ∧ 0 < max_dt then Except.ok () else Except.error IVPError.InvalidStep

/-- Command messages `PhysicsMessage` (physics.rs lines 39-44). -/
inductive Cmd where
  | reset (time radius aspect_ratio : ℚ)
  | spawn (num : ℕ)
  | pop (num : ℕ)
deriving DecidableEq

/-- Observable events of one worker-loop iteration: clearing the
reset-in-progress flag (physics.rs lines 135-137), publishing one
integration step onto the snapshot queue (line 142), and receiving plus
applying a pending command (lines 146-273). -/
inductive WEvent where
  | flagClear
  | publish (time : ℚ) (state : List ℚ)
  | applyCmd
deriving DecidableEq

/-- State of the worker loop `PhysicsThread::thread` (physics.rs lines
100-282): the reset-in-progress flag, the pending command of the bounded
command channel (depth 1), the solver state (time, positions, velocities),
configuration, the snapshot queue and the sample tape for Spawn.  Parking
and the response channel payloads do not affect the modelled event order
and are elided. -/
structure WState where
  flag : Bool
  cmd : Option Cmd
  time : ℚ
  radius : ℚ
  aspect_ratio : ℚ
  np : ℕ
  y : List ℚ
  v : List ℚ
  queue : List (ℚ × List ℚ)
  tape : List Cand
deriving DecidableEq

/-- Command handling branch of the worker loop (physics.rs lines 147-273).
The handler steals one queue entry for the start state (front of the
`Injector`; a zero vector of the current dimension when the queue is
empty), applies the message, then — except on a failed Spawn, which
`continue`s right after responding `false` — overwrites the worker time
with the stolen time (line 248; the Reset message time is thereby
discarded), drains the queue completely, pushes the recovered state back
and rebuilds the solver from it. -/
def apply_command (s : WState) (c : Cmd) : WState :=
  let start := match s.queue with
    | [] => (s.time, List.replicate (s.np * 2) (0 : ℚ))
    | q0 :: _ => q0
  match c with
  | Cmd.reset _time r2 a2 =>
    { s with
      cmd := none
      radius := r2
      aspect_ratio := a2
      time := start.1
      y := start.2
      queue := [(start.1, start.2)] }
  | Cmd.pop n =>
    let np' := if n > s.np then 0 else s.np - n
    let v' := s.v.take (np' * 2)
    let y' := start.2.take (np' * 2)
    { s with
      cmd := none
      np := np'
      v := v'
      y := y'
      time := start.1
      queue := [(start.1, y')] }
  | Cmd.spawn n =>
    match spawn_loop s.radius s.aspect_ratio start.2 n s.tape 0 0 [] with
    | none => { s with cmd := none, queue := s.queue.drop 1 }
    | some (failed, acc) =>
      if failed = 50 then { s with cmd := none, queue := s.queue.drop 1 }
      else
        { s with
          cmd := none
          np := s.np + n
          v := s.v ++ flatten_vel acc
          y := start.2 ++ flatten_pos acc
          time := start.1
          queue := [(start.1, start.2 ++ flatten_pos acc)] }

/-- One iteration of the worker loop (physics.rs lines 132-281).  Under the
lock, a set reset-in-progress flag is cleared and the iteration restarts
immediately (`continue`), publishing nothing; otherwise the solver steps
once and the result is pushed onto the queue, and only then is the command
channel polled and a pending command applied.  Returns the successor state
and the events of the iteration in program order. -/
def worker_iter (s : WState) : WState × List WEvent :=
  if s.flag then ({ s with flag := false }, [WEvent.flagClear])
  else
    let p := stepState s.radius s.aspect_ratio step_dt s.y s.v
    let t' := s.time + step_dt
    let s1 : WState :=
      { s with
        time := t'
        y := p.1
        v := p.2
        queue := s.queue ++ [(t', p.1)] }
    match s1.cmd with
    | none => (s1, [WEvent.publish t' p.1])
    | some c => (apply_command s1 c, [WEvent.publish t' p.1, WEvent.applyCmd])

/-- Event trace of `n` consecutive worker-loop iterations. -/
def run_trace (s : WState) : ℕ → List WEvent
  | 0 => []
  | n + 1 =>
    let p := worker_iter s
    p.2 ++ run_trace p.1 n

/-- Number of publish events before the first command application. -/
def count_pub_until_apply : List WEvent → ℕ
  | [] => 0
  | WEvent.applyCmd :: _ => 0
  | WEvent.publish _ _ :: rest => count_pub_until_apply rest + 1
  | WEvent.flagClear :: rest => count_pub_until_apply rest

/-- Number of snapshots published strictly between the first observation of
the reset-in-progress flag and the first subsequent command application. -/
def count_publish_between : List WEvent → ℕ
  | [] => 0
  | WEvent.flagClear :: rest => count_pub_until_apply rest
  | _ :: rest => count_publish_between rest

/-- Concrete worker state in the middle of a Reset handshake: the
controller has set the flag and the command is already pending. -/
def w0 : WState :=
  { flag := true
    cmd := some (Cmd.pop 0)
    time := 0
    radius := 1 / 2
    aspect_ratio := 1
    np := 0
    y := []
    v := []
    queue := []
    tape := [] }

/-! Helper lemmas about the Euler step and the boundary invariant. -/

/-- One application of the velocity flip and Euler advance preserves the
axis invariant, provided the step is positive and the band is nonempty. -/
lemma axisInv_step (lo hi dt x v : ℚ) (hdt : 0 < dt) (hlh : lo ≤ hi)
    (h : axisInv lo hi dt x v) :
    axisInv lo hi dt (x + dt * flipVel lo hi x v) (flipVel lo hi x v) := by
  obtain ⟨h1, h2, h3, h4⟩ := h
  have hB : (0 : ℚ) ≤ dt * |v| := by positivity
  have hAB : dt * v ≤ dt * |v| := mul_le_mul_of_nonneg_left (le_abs_self v) hdt.le
  have hnAB : -(dt * |v|) ≤ dt * v := by
    have h5 := mul_le_mul_of_nonneg_left (neg_abs_le v) hdt.le
    linarith [h5]
  simp only [axisInv, flipVel]
  by_cases hc : x ≤ lo ∨ hi ≤ x
  · rw [if_pos hc, abs_neg]
    rcases hc with hxl | hxh
    · rcases lt_or_eq_of_le hxl with hlt | heq
      · have hv : v < 0 := h4 hlt
        have hBA : dt * |v| = -(dt * v) := by rw [abs_of_neg hv]; ring
        have hA0 : dt * v < 0 := mul_neg_of_pos_of_neg hdt hv
        exact ⟨by linarith, by linarith, fun h5 => by linarith, fun h5 => by linarith⟩
      · subst heq
        refine ⟨by linarith, by linarith, fun h5 => ?_, fun h5 => ?_⟩
        · by_contra h6
          push_neg at h6
          have h7 : (0 : ℚ) ≤ dt * v := mul_nonneg hdt.le (by linarith)
          linarith
        · by_contra h6
          push_neg at h6
          have h7 : (0 : ℚ) ≤ dt * -v := mul_nonneg hdt.le (by linarith)
          nlinarith [h7]
    · rcases lt_or_eq_of_le hxh with hlt | heq
      · have hv : 0 < v := h3 hlt
        have hBA : dt * |v| = dt * v := by rw [abs_of_pos hv]
        have hA0 : 0 < dt * v := mul_pos hdt hv
        exact ⟨by linarith, by linarith, fun h5 => by linarith, fun h5 => by linarith⟩
      · subst heq
        refine ⟨by linarith, by linarith, fun h5 => ?_, fun h5 => ?_⟩
        · by_contra h6
          push_neg at h6
          have h7 : (0 : ℚ) ≤ dt * v := mul_nonneg hdt.le (by linarith)
          linarith
        · by_contra h6
          push_neg at h6
          have h7 : (0 : ℚ) ≤ dt * -v := mul_nonneg hdt.le (by linarith)
          nlinarith [h7]
  · rw [if_neg hc]
    push_neg at hc
    obtain ⟨hgt, hlt2⟩ := hc
    refine ⟨by linarith, by linarith, fun h5 => ?_, fun h5 => ?_⟩
    · by_contra h6
      push_neg at h6
      have h7 : (0 : ℚ) ≤ dt * -v := mul_nonneg hdt.le (by linarith)
      nlinarith [h7]
    · by_contra h6
      push_neg at h6
      have h7 : (0 : ℚ) ≤ dt * v := mul_nonneg hdt.le h6
      linarith

/-- The whole-state invariant is preserved by one Euler step of the
worker, provided both axis bands are nonempty. -/
lemma stateInv_step (r a dt : ℚ) (hdt : 0 < dt) (hr : r ≤ 1) (hra : r * a ≤ 1) :
    ∀ ys vs, stateInv r a dt ys vs →
      stateInv r a dt (stepState r a dt ys vs).1 (stepState r a dt ys vs).2 := by
  intro ys vs
  induction ys, vs using stepState.induct r a dt with
  | case1 x py ys vx vy vs ih =>
    intro h
    obtain ⟨hx, hy, ht⟩ := h
    simp only [stepState, stateInv]
    exact ⟨axisInv_step _ _ _ _ _ hdt (by linarith) hx,
      axisInv_step _ _ _ _ _ hdt (by linarith) hy, ih ht⟩
  | case2 ys vs hsh =>
    intro h
    simp only [stepState]
    exact h

/-- A state strictly inside the band satisfies the invariant. -/
lemma stateInv_of_strict (r a dt : ℚ) (hdt : 0 < dt) :
    ∀ ys vs, strictInside r a ys vs → stateInv r a dt ys vs := by
  intro ys vs
  induction ys, vs using stepState.induct r a dt with
  | case1 x py ys vx vy vs ih =>
    intro h
    obtain ⟨⟨hx1, hx2⟩, ⟨hy1, hy2⟩, ht⟩ := h
    have hBx : (0 : ℚ) ≤ dt * |vx| := by positivity
    have hBy : (0 : ℚ) ≤ dt * |vy| := by positivity
    refine ⟨⟨by linarith, by linarith, fun h5 => absurd h5 (by linarith),
        fun h5 => absurd h5 (by linarith)⟩,
      ⟨by linarith, by linarith, fun h5 => absurd h5 (by linarith),
        fun h5 => absurd h5 (by linarith)⟩, ih ht⟩
  | case2 ys vs hsh =>
    intro h
    rcases ys with _ | ⟨x, _ | ⟨py, ys⟩⟩
    · simp [stateInv]
    · rcases vs with _ | ⟨vx, _ | ⟨vy, vs⟩⟩ <;> simp [stateInv]
    · rcases vs with _ | ⟨vx, _ | ⟨vy, vs⟩⟩
      · simp [stateInv]
      · simp [stateInv]
      · exact (hsh x py ys vx vy vs rfl rfl).elim

/-- The invariant implies the containment-with-one-step-slack bound. -/
lemma boundedState_of_inv (r a dt : ℚ) :
    ∀ ys vs, stateInv r a dt ys vs → boundedState r a dt ys vs := by
  intro ys vs
  induction ys, vs using stepState.induct r a dt with
  | case1 x py ys vx vy vs ih =>
    intro h
    obtain ⟨⟨hx1, hx2, _, _⟩, ⟨hy1, hy2, _, _⟩, ht⟩ := h
    exact ⟨⟨hx1, hx2⟩, ⟨hy1, hy2⟩, ih ht⟩
  | case2 ys vs hsh =>
    intro h
    rcases ys with _ | ⟨x, _ | ⟨py, ys⟩⟩
    · simp [boundedState]
    · rcases vs with _ | ⟨vx, _ | ⟨vy, vs⟩⟩ <;> simp [boundedState]
    · rcases vs with _ | ⟨vx, _ | ⟨vy, vs⟩⟩
      · simp [boundedState]
      · simp [boundedState]
      · exact (hsh x py ys vx vy vs rfl rfl).elim

/-- Every state of a trajectory that starts strictly inside the band
satisfies the invariant. -/
lemma stateInv_trajectory (r a : ℚ) (y v : List ℚ) (hr : r ≤ 1) (hra : r * a ≤ 1)
    (h : strictInside r a y v) (n : ℕ) :
    stateInv r a step_dt (trajectory r a step_dt y v n).1
      (trajectory r a step_dt y v n).2 := by
  have hdt : (0 : ℚ) < step_dt := by norm_num [step_dt]
  induction n with
  | zero => exact stateInv_of_strict r a step_dt hdt y v h
  | succ n ihn => exact stateInv_step r a step_dt hdt hr hra _ _ ihn

/-- C1 counterexample: the claim that every published snapshot satisfies
`-1 + radius ≤ state[2i] ≤ 1 - radius` is false.  With radius `1/2`,
aspect ratio `1` and one particle at `x = 9/20` (strictly inside the band,
as Spawn placement would produce) moving with `vx = 1`, the very next
published snapshot has `x = 11/20 > 1 - radius`: the derivative rule only
flips the velocity, it never clamps the position, so one Euler step may
exit the band and that state is pushed onto the snapshot queue. -/
theorem c1_counterexample :
    strictInside (1 / 2) 1 [9 / 20, 0] [1, 0] ∧
    (trajectory (1 / 2) 1 step_dt [9 / 20, 0] [1, 0] 1).1 = [11 / 20, 0] ∧
    ¬ ((11 / 20 : ℚ) ≤ 1 - 1 / 2) := by
  refine ⟨?_, ?_, by norm_num⟩
  · norm_num [strictInside]
  · norm_num [trajectory, stepState, flipVel, step_dt]

/-- C1 (amended): every published snapshot of a trajectory whose particles
start strictly inside the reflecting band (with `r ≤ 1` and `r * a ≤ 1`)
stays within the band extended by one integration step of travel on each
side: `-1 + r - dt * |vx| ≤ state[2i] ≤ 1 - r + dt * |vx|` on x and the
aspect-scaled analogue on y, for the fixed step `dt = 1/10`. -/
theorem c1_amended (r a : ℚ) (y v : List ℚ) (hr : r ≤ 1) (hra : r * a ≤ 1)
    (h : strictInside r a y v) (n : ℕ) :
    boundedState r a step_dt (trajectory r a step_dt y v n).1
      (trajectory r a step_dt y v n).2 :=
  boundedState_of_inv r a step_dt _ _ (stateInv_trajectory r a y v hr hra h n)

/-- C1 witness: the amended bound evaluated on a concrete trajectory. -/
theorem c1_witness :
    boundedState (1 / 2) 1 step_dt (trajectory (1 / 2) 1 step_dt [9 / 20, 0] [1, 0] 2).1
      (trajectory (1 / 2) 1 step_dt [9 / 20, 0] [1, 0] 2).2 :=
  c1_amended (1 / 2) 1 [9 / 20, 0] [1, 0] (by norm_num) (by norm_num)
    (by norm_num [strictInside]) 2

/-- C2: the rejection claimed by the spec never happens.  With radius
`1/4`, aspect ratio `1`, one existing particle at the origin and a
candidate at `(1/10, 0)` — whose center is within `2 * radius` of the
existing particle, as the first two conjuncts verify — the Spawn handler
still accepts the candidate and reports success with the overlapping
particle appended: in the source the overlap `continue` targets the inner
`for` loop and `failed_circles` is reset to zero right after the push, so
the overlap scan has no effect on the outcome. -/
theorem c2_overlap_not_rejected :
    ((0 - 1 / 10 : ℚ) ^ 2 + ((0 - 0 : ℚ) / 1) ^ 2 ≤ 4 * (1 / 4 : ℚ) ^ 2) ∧
    overlap_count (1 / 4) 1 (1 / 10) 0 [0, 0] = 1 ∧
    spawn_handler (1 / 4) 1 1 [0, 0] [1, 1] 1 [⟨1 / 10, 0, 0, 0⟩] =
      some (true, 2, [0, 0, 1 / 10, 0], [1, 1, 0, 0]) := by
  refine ⟨by norm_num, by norm_num [overlap_count], ?_⟩
  norm_num [spawn_handler, spawn_loop, flatten_pos, flatten_vel]

/-- Helper evaluation: a tape of candidates that all fail the x boundary
check (radius 2 makes the inset box empty) drives `failed_circles` from
`f` to exactly 50, with nothing accepted. -/
lemma spawn_allfail : ∀ (k f : ℕ), f + k = 50 →
    spawn_loop 2 1 [] 1 (List.replicate k ⟨0, 0, 0, 0⟩) 0 f [] = some (50, [])
  | 0, f, h => by
    have hf : f = 50 := by omega
    subst hf
    simp [spawn_loop]
  | k + 1, f, h => by
    have hf : f < 50 := by omega
    have h2 := spawn_allfail k (f + 1) (by omega)
    rw [List.replicate_succ]
    rw [spawn_loop, if_pos ⟨Nat.zero_lt_one, hf⟩]
    simp only []
    rw [if_pos (Or.inl (by norm_num : (0 : ℚ) ≤ -1 + 2))]
    exact h2

/-- C3: when the Spawn loop ends with 50 consecutive rejections, the
handler responds `false`, leaves the particle count and both the state and
velocity vectors exactly as they were (no partial placement), the
controller count is unchanged on a `false` response, and it grows by
exactly `num` only on a `true` response. -/
theorem c3_spawn_atomic (r a : ℚ) (np : ℕ) (state vels : List ℚ) (num : ℕ)
    (tape : List Cand) (count : ℕ) (acc : List ((ℚ × ℚ) × ℚ × ℚ))
    (h : spawn_loop r a state num tape 0 0 [] = some (50, acc)) :
    spawn_handler r a np state vels num tape = some (false, np, state, vels) ∧
    controller_spawn count num false = count ∧
    controller_spawn count num true = count + num := by
  refine ⟨?_, rfl, rfl⟩
  simp [spawn_handler, h]

/-- C3 witness: a saturated spawn attempt (radius 2 leaves no valid
placement) aborts after 50 rejections and changes nothing. -/
theorem c3_witness :
    spawn_handler 2 1 0 [] [] 1 (List.replicate 50 ⟨0, 0, 0, 0⟩) = some (false, 0, [], []) ∧
    controller_spawn 5 1 false = 5 ∧
    controller_spawn 5 1 true = 6 :=
  c3_spawn_atomic 2 1 0 [] [] 1 (List.replicate 50 ⟨0, 0, 0, 0⟩) 5 [] (spawn_allfail 50 0 rfl)

/-- Drain-loop characterisation: a successful drain splits the queue into
the drained older entries (all strictly before `t`, appended to the
incoming scratchpad in order) followed by the returned entry, which is not
before `t`. -/
lemma drain_loop_spec (t : ℚ) :
    ∀ (q scr : List (ℚ × List ℚ)) (after : ℚ × List ℚ) (scratch : List (ℚ × List ℚ)),
      drain_loop t q scr = some (after, scratch) →
      ∃ older rest, q = older ++ after :: rest ∧ scratch = scr ++ older ∧
        (∀ s ∈ older, s.1 < t) ∧ ¬ after.1 < t
  | [], scr, after, scratch, h => by simp [drain_loop] at h
  | s :: rest, scr, after, scratch, h => by
    by_cases hs : s.1 < t
    · rw [drain_loop, if_pos hs] at h
      obtain ⟨older, rest2, hq, hscr, hall, hafter⟩ :=
        drain_loop_spec t rest (scr ++ [s]) after scratch h
      refine ⟨s :: older, rest2, by simp [hq], by simp [hscr], ?_, hafter⟩
      intro u hu
      rcases List.mem_cons.mp hu with rfl | hu2
      · exact hs
      · exact hall u hu2
    · rw [drain_loop, if_neg hs] at h
      simp only [Option.some.injEq, Prod.mk.injEq] at h
      obtain ⟨rfl, rfl⟩ := h
      exact ⟨[], rest, rfl, by simp, by simp, hs⟩

/-- Drain loop on a queue whose entries are all strictly before `t`: the
finite tape is exhausted without a result (the source loop would spin). -/
lemma drain_loop_none (t : ℚ) :
    ∀ q scr, (∀ s ∈ q, s.1 < t) → drain_loop t q scr = none
  | [], _, _ => rfl
  | s :: rest, scr, h => by
    rw [drain_loop, if_pos (h s (by simp))]
    exact drain_loop_none t rest (scr ++ [s]) fun u hu => h u (by simp [hu])

/-- C4: whenever `get_state` returns, the queue decomposes into drained
older-than-`t` entries followed by the first entry at-or-after `t`; with
no drained older entry the result is that snapshot verbatim, and
otherwise it is the interpolation `before * frac + after * (1 - frac)`
with `frac = (t - before_time) / (after_time - before_time)` against the
most recently drained older snapshot. -/
theorem c4_interpolation (radius t : ℚ) (q : List (ℚ × List ℚ)) (res : List Instance)
    (h : get_state radius t q = some res) :
    ∃ older after rest, q = older ++ after :: rest ∧
      (∀ s ∈ older, s.1 < t) ∧ t ≤ after.1 ∧
      ((older = [] ∧ res = instances radius after.2) ∨
        (older ≠ [] ∧ ∃ before, older.getLast? = some before ∧
          res = instances radius (List.zipWith
            (fun b a2 => b * ((t - before.1) / (after.1 - before.1)) +
              a2 * (1 - (t - before.1) / (after.1 - before.1))) before.2 after.2))) := by
  rw [get_state] at h
  rcases hd : drain_loop t q [] with _ | ⟨after, scratch⟩
  · rw [hd] at h
    exact absurd h (by simp)
  · rw [hd] at h
    obtain ⟨older, rest, hq, hscr, hall, hafter⟩ := drain_loop_spec t q [] after scratch hd
    simp only [List.nil_append] at hscr
    subst hscr
    dsimp only [] at h
    cases hl : scratch.getLast? with
    | none =>
      rw [hl] at h
      simp only [Option.some.injEq] at h
      have holder : scratch = [] := List.getLast?_eq_none_iff.mp hl
      exact ⟨scratch, after, rest, hq, hall, le_of_not_lt hafter, Or.inl ⟨holder, h.symm⟩⟩
    | some before =>
      rw [hl] at h
      simp only [Option.some.injEq] at h
      have holder : scratch ≠ [] := by
        intro he
        rw [he] at hl
        simp at hl
      exact ⟨scratch, after, rest, hq, hall, le_of_not_lt hafter,
        Or.inr ⟨holder, before, hl, h.symm⟩⟩

/-- C4 witness: the interpolation protocol evaluated on a concrete queue,
querying `t = 1` between snapshots at times 0 and 2 (fraction one half). -/
theorem c4_witness :
    ∃ older after rest, [((0 : ℚ), [(1 : ℚ), 2]), (2, [3, 4])] = older ++ after :: rest ∧
      (∀ s ∈ older, s.1 < (1 : ℚ)) ∧ (1 : ℚ) ≤ after.1 ∧
      ((older = [] ∧ [(⟨(2, 3), 1, (1, 1, 1)⟩ : Instance)] = instances 1 after.2) ∨
        (older ≠ [] ∧ ∃ before, older.getLast? = some before ∧
          [(⟨(2, 3), 1, (1, 1, 1)⟩ : Instance)] = instances 1 (List.zipWith
            (fun b a2 => b * (((1 : ℚ) - before.1) / (after.1 - before.1)) +
              a2 * (1 - ((1 : ℚ) - before.1) / (after.1 - before.1))) before.2 after.2))) :=
  c4_interpolation 1 1 [((0 : ℚ), [(1 : ℚ), 2]), (2, [3, 4])] [⟨(2, 3), 1, (1, 1, 1)⟩]
    (by norm_num [get_state, drain_loop, instances])

/-- Pointwise form of the interpolation at fraction one: the before sample
is returned unchanged when both vectors have the same length. -/
lemma zipWith_frac_one : ∀ (s0 s1 : List ℚ), s0.length = s1.length →
    List.zipWith (fun b a2 => b * 1 + a2 * (1 - 1)) s0 s1 = s0
  | [], [], _ => rfl
  | b :: s0, a2 :: s1, h => by
    simp only [List.zipWith]
    rw [zipWith_frac_one s0 s1 (by simpa using h)]
    norm_num
  | [], a2 :: s1, h => by simp at h
  | b :: s0, [], h => by simp at h

/-- C5 (amended): for a queue holding exactly two snapshots at `t0 < t1`
of equal dimension, querying at `t0` returns the `t0` snapshot verbatim
(no older entry is drained), while querying at `t1` returns the `t0`
snapshot — not the `t1` one — because the reverse-weighted interpolation
assigns fraction 1 to the before sample there. -/
theorem c5_amended (radius t0 t1 : ℚ) (s0 s1 : List ℚ)
    (hlt : t0 < t1) (hlen : s0.length = s1.length) :
    get_state radius t0 [(t0, s0), (t1, s1)] = some (instances radius s0) ∧
    get_state radius t1 [(t0, s0), (t1, s1)] = some (instances radius s0) := by
  constructor
  · rw [get_state, drain_loop, if_neg (lt_irrefl t0)]
    simp
  · rw [get_state, drain_loop, if_pos hlt, drain_loop, if_neg (lt_irrefl t1)]
    have hfrac : (t1 - (t0, s0).1) / ((t1, s1).1 - (t0, s0).1) = 1 :=
      div_self (sub_ne_zero.mpr hlt.ne')
    simp only [List.nil_append, List.getLast?_singleton, hfrac]
    rw [zipWith_frac_one s0 s1 hlen]

/-- C5 counterexample: the claim that querying exactly at `t1` returns the
`t1` snapshot verbatim is false.  With snapshots `(0, [0, 0])` and
`(1, [2, 2])`, querying at `t = 1` yields the instances of `[0, 0]` (the
`t0` snapshot), which differ from the instances of `[2, 2]` by a distance
of 2 — not a rounding artifact. -/
theorem c5_counterexample :
    get_state 1 1 [(0, [0, 0]), (1, [2, 2])] = some (instances 1 [0, 0]) ∧
    instances 1 [0, 0] ≠ instances 1 [2, 2] := by
  constructor
  · norm_num [get_state, drain_loop, instances]
  · norm_num [instances, Instance.mk.injEq, Prod.ext_iff]

/-- C5 witness: the amended statement evaluated on concrete snapshots. -/
theorem c5_witness :
    get_state 1 0 [((0 : ℚ), [(0 : ℚ), 0]), (1, [2, 2])] = some (instances 1 [0, 0]) ∧
    get_state 1 1 [((0 : ℚ), [(0 : ℚ), 0]), (1, [2, 2])] = some (instances 1 [0, 0]) :=
  c5_amended 1 0 1 [0, 0] [2, 2] (by norm_num) rfl

/-- C6: `pop` always succeeds; the controller count becomes
`max 0 (prior - num)`, the worker count agrees with it, both truncated
vectors have length `2 * max 0 (prior - num)`, and every surviving entry
equals the corresponding original entry (the first particles are kept). -/
theorem c6_pop (np num : ℕ) (state vels : List ℚ)
    (hs : state.length = 2 * np) (hv : vels.length = 2 * np) :
    ((controller_pop np num : ℤ) = max 0 ((np : ℤ) - num)) ∧
    (pop_worker np state vels num).1 = controller_pop np num ∧
    (((pop_worker np state vels num).2.1.length : ℤ) = 2 * max 0 ((np : ℤ) - num)) ∧
    (((pop_worker np state vels num).2.2.length : ℤ) = 2 * max 0 ((np : ℤ) - num)) ∧
    (∀ i : ℕ, i < (pop_worker np state vels num).2.1.length →
      (pop_worker np state vels num).2.1[i]? = state[i]?) ∧
    (∀ i : ℕ, i < (pop_worker np state vels num).2.2.length →
      (pop_worker np state vels num).2.2[i]? = vels[i]?) := by
  have hval : (if num > np then 0 else np - num) = np - num := by split_ifs <;> omega
  simp only [pop_worker, hval, List.length_take]
  refine ⟨?_, ?_, ?_, ?_, ?_, ?_⟩
  · simp only [controller_pop]
    split_ifs <;> omega
  · simp only [controller_pop]
    split_ifs <;> omega
  · omega
  · omega
  · intro i hi
    rw [List.getElem?_take, if_pos (by omega)]
  · intro i hi
    rw [List.getElem?_take, if_pos (by omega)]

/-- C6 witness: popping one of three particles on concrete vectors. -/
theorem c6_witness :
    ((controller_pop 3 1 : ℤ) = max 0 ((3 : ℕ) - (1 : ℕ) : ℤ)) ∧
    (pop_worker 3 [1, 2, 3, 4, 5, 6] [7, 8, 9, 10, 11, 12] 1).1 = controller_pop 3 1 ∧
    (((pop_worker 3 [1, 2, 3, 4, 5, 6] [7, 8, 9, 10, 11, 12] 1).2.1.length : ℤ) =
      2 * max 0 ((3 : ℕ) - (1 : ℕ) : ℤ)) ∧
    (((pop_worker 3 [1, 2, 3, 4, 5, 6] [7, 8, 9, 10, 11, 12] 1).2.2.length : ℤ) =
      2 * max 0 ((3 : ℕ) - (1 : ℕ) : ℤ)) ∧
    (∀ i : ℕ, i < (pop_worker 3 [1, 2, 3, 4, 5, 6] [7, 8, 9, 10, 11, 12] 1).2.1.length →
      (pop_worker 3 [1, 2, 3, 4, 5, 6] [7, 8, 9, 10, 11, 12] 1).2.1[i]? =
        [(1 : ℚ), 2, 3, 4, 5, 6][i]?) ∧
    (∀ i : ℕ, i < (pop_worker 3 [1, 2, 3, 4, 5, 6] [7, 8, 9, 10, 11, 12] 1).2.2.length →
      (pop_worker 3 [1, 2, 3, 4, 5, 6] [7, 8, 9, 10, 11, 12] 1).2.2[i]? =
        [(7 : ℚ), 8, 9, 10, 11, 12][i]?) :=
  c6_pop 3 1 [1, 2, 3, 4, 5, 6] [7, 8, 9, 10, 11, 12] rfl rfl

/-- The iteration that observes the reset-in-progress flag only clears it
and restarts, publishing nothing. -/
lemma worker_iter_flag (t : WState) (hf : t.flag = true) :
    worker_iter t = ({ t with flag := false }, [WEvent.flagClear]) := by
  simp [worker_iter, hf]

/-- An iteration with the flag down and a command pending publishes its
step first and only then applies the command. -/
lemma worker_iter_cmd_events (t : WState) (c : Cmd) (hf : t.flag = false)
    (hc : t.cmd = some c) :
    ∃ tm st, (worker_iter t).2 = [WEvent.publish tm st, WEvent.applyCmd] := by
  refine ⟨t.time + step_dt, (stepState t.radius t.aspect_ratio step_dt t.y t.v).1, ?_⟩
  simp [worker_iter, hf, hc]

/-- C7 (amended): across the Reset handshake exactly one integration step
is published between the observation of the reset-in-progress flag and the
application of the pending command — the flag-observing iteration
publishes nothing, but the following iteration pushes its step onto the
queue before polling the command channel. -/
theorem c7_amended (s : WState) (c : Cmd) (hf : s.flag = true) (hc : s.cmd = some c) :
    count_publish_between (run_trace s 2) = 1 := by
  obtain ⟨tm, st, hev⟩ := worker_iter_cmd_events { s with flag := false } c rfl hc
  simp [run_trace, worker_iter_flag s hf, hev, count_publish_between, count_pub_until_apply]

/-- C7 counterexample: the claim that no step is published between flag
observation and command application is false.  From the concrete
handshake state `w0` (flag set, Pop command pending) the two-iteration
trace is flag-clear, then a publish, then the command application, so the
number of snapshots published in between is 1, not 0. -/
theorem c7_counterexample :
    run_trace w0 2 = [WEvent.flagClear, WEvent.publish (1 / 10) [], WEvent.applyCmd] ∧
    count_publish_between (run_trace w0 2) ≠ 0 := by
  have h : run_trace w0 2 = [WEvent.flagClear, WEvent.publish (1 / 10) [], WEvent.applyCmd] := by
    norm_num [run_trace, worker_iter, w0, stepState, apply_command, step_dt]
  refine ⟨h, ?_⟩
  rw [h]
  simp [count_publish_between, count_pub_until_apply]

/-- C7 witness: the amended count evaluated on the concrete handshake. -/
theorem c7_witness : count_publish_between (run_trace w0 2) = 1 :=
  c7_amended w0 (Cmd.pop 0) rfl rfl

/-- C8 (amended): the integrator builder (modelled from the spec, the
crate is external) fails exactly on non-positive step bounds; the fixed
bounds of one tenth used by the worker are valid, so its construction
succeeds; and `Physics::new` returns `Ok` with zero particles no matter
what the worker-side construction outcome is — a construction error
panics the worker thread instead of being returned to the caller. -/
theorem c8_amended :
    (∀ mn mx : ℚ, euler_builder mn mx = Except.ok () ↔ 0 < mn ∧ 0 < mx) ∧
    euler_builder step_dt step_dt = Except.ok () ∧
    (∀ (d : Bool) (t r a : ℚ) (o : Except IVPError Unit),
      physics_new d t r a o =
        Except.ok { time := t, radius := r, aspect_ratio := a, num_particles := 0 }) := by
  refine ⟨fun mn mx => ?_, ?_, fun d t r a o => rfl⟩
  · rw [euler_builder]
    split_ifs with h
    · simp [h]
    · simp [h]
  · rw [euler_builder, if_pos (by norm_num [step_dt] : (0 : ℚ) < step_dt ∧ (0 : ℚ) < step_dt)]

/-- C8 counterexample: the claim that an integrator-construction failure
is returned from `Physics::new` is false — even when the worker-side
outcome is an error, `Physics::new` still returns `Ok`. -/
theorem c8_counterexample :
    physics_new false 0 (1 / 16) 1 (Except.error IVPError.TimeEndOOB) =
      Except.ok { time := 0, radius := 1 / 16, aspect_ratio := 1, num_particles := 0 } := rfl

/-- C9: a freshly constructed handle has zero particles for every choice
of constructor arguments, the worker integrates the empty state so every
published snapshot stays empty until a successful spawn, and the empty
state maps to an empty instance list. -/
theorem c9_fresh_empty (d : Bool) (t r a : ℚ) (o : Except IVPError Unit) :
    physics_new d t r a o =
      Except.ok { time := t, radius := r, aspect_ratio := a, num_particles := 0 } ∧
    (∀ n : ℕ, trajectory r a step_dt [] [] n = ([], [])) ∧
    instances r [] = [] := by
  refine ⟨rfl, fun n => ?_, rfl⟩
  induction n with
  | zero => rfl
  | succ n ih =>
    simp only [trajectory]
    rw [ih]
    rfl

/-- C10: `get_state` returns only once a snapshot at-or-after `t` has been
retrieved — if every snapshot ever available is strictly older than `t`
the drain loop never produces a result (no fallback to an older snapshot
or an empty answer), and any returned result certifies a queue entry with
time at or after `t`. -/
theorem c10_no_fallback (radius t : ℚ) (q : List (ℚ × List ℚ)) :
    ((∀ s ∈ q, s.1 < t) → get_state radius t q = none) ∧
    (∀ res, get_state radius t q = some res → ∃ after ∈ q, t ≤ after.1) := by
  constructor
  · intro h
    rw [get_state, drain_loop_none t q [] h]
  · intro res h
    rw [get_state] at h
    rcases hd : drain_loop t q [] with _ | ⟨after, scratch⟩
    · rw [hd] at h
      exact absurd h (by simp)
    · obtain ⟨older, rest, hq, _, _, hafter⟩ := drain_loop_spec t q [] after scratch hd
      exact ⟨after, by simp [hq], le_of_not_lt hafter⟩

/-- C10 witness: a queue whose snapshots are all older than the query time
yields no result. -/
theorem c10_witness : get_state 1 2 [((0 : ℚ), [(5 : ℚ), 5]), (1, [6, 6])] = none :=
  (c10_no_fallback 1 2 [((0 : ℚ), [(5 : ℚ), 5]), (1, [6, 6])]).1 (by
    intro s hs
    simp only [List.mem_cons, List.not_mem_nil, or_false] at hs
    rcases hs with rfl | rfl <;> norm_num)
